import Mathlib

/-!
Verification of the category-map fitting and application algorithm of
`autogluon/utils/tabular/features/generators/category.py`
(class `CategoryFeatureGenerator`).

Shallow embedding conventions:

* A cell is `Option String`: `none` models a pandas missing value (NaN),
  `some v` a concrete value.  A column is a list of cells, a table a list
  of named columns.
* `Series.astype(category)` on an object column builds the category index
  from the distinct non-null values sorted ascending (pandas constructs
  `Categorical` with `factorize(values, sort=True)`); `naturalCategories`
  models exactly that.  Input columns are modelled as object-typed.
* `value_counts()` on the resulting categorical series returns one count
  per category, ordered by descending count; the subsequent
  `.sort_values(ascending=True)` re-sorts ascending by count.  The program
  only guarantees the by-count ordering: both calls use the numpy default
  quicksort kernel, whose tie order is an implementation detail (stable
  only below its insertion-sort threshold).  The model fixes one concrete
  tie order by using `List.insertionSort`; the theorems below use the
  ranking only through tie-order-independent consequences (sortedness by
  count, membership, length, and count dominance of kept over dropped
  entries).
* Python slicing `rank[-maximum_num_cat:]` is modelled by `pySliceStart`
  with the exact Python semantics of a `[k:]` slice, including the fact
  that `-0 == 0` so a maximum of zero keeps the whole list.
* `set_categories` / `CategoricalDtype(categories=...)` recoding keeps a
  cell exactly when its value is in the given category list and maps it to
  the missing marker otherwise; `recodeColumn` models that.
* The mutable instance state (`self.category_map`) is embedded by explicit
  state passing through `GenState`.
-/

abbrev Value := String

/-- A cell of a column: `none` is the missing marker (NaN). -/
abbrev Cell := Option Value

abbrev Column := List Cell

/-- A table: named columns in order, sharing a row index. -/
abbrev Table := List (String × Column)

/-- Configuration frozen at construction time, after the normalisation the
constructor performs (`minimum_cat_count <= 1` becomes disabled). -/
structure Config where
  statefulCategories : Bool
  minimizeMemory : Bool
  catOrder : String
  minimumCatCount : Option Nat
  maximumNumCat : Option Int
deriving Repr, DecidableEq

/-- The constructor `CategoryFeatureGenerator.__init__`: normalises
`minimum_cat_count` (values at most 1 are disabled) and rejects any
`cat_order` outside the three allowed names with a descriptive error. -/
def CategoryFeatureGenerator.init (statefulCategories minimizeMemory : Bool)
    (catOrder : String) (minimumCatCount : Option Int)
    (maximumNumCat : Option Int) : Except String Config :=
  let mcc : Option Nat :=
    match minimumCatCount with
    | some k => if k ≤ 1 then none else some k.toNat
    | none => none
  if catOrder ∈ (["original", "alphanumeric", "count"] : List String) then
    Except.ok
      { statefulCategories := statefulCategories
        minimizeMemory := minimizeMemory
        catOrder := catOrder
        minimumCatCount := mcc
        maximumNumCat := maximumNumCat }
  else
    Except.error
      ("cat_order must be one of [original, alphanumeric, count], but was: "
        ++ catOrder)

/-- Number of occurrences of value `v` in a column (missing cells never
count). -/
def countVal (col : Column) (v : Value) : Nat :=
  col.count (some v)

/-- Lexicographic comparison of char lists by code point, the order Python
and pandas use on strings. -/
def charListLe : List Char → List Char → Bool
  | [], _ => true
  | _ :: _, [] => false
  | a :: as, b :: bs =>
    if a.toNat < b.toNat then true
    else if b.toNat < a.toNat then false
    else charListLe as bs

/-- Lexicographic order on values. -/
def valLe (a b : Value) : Prop := charListLe a.data b.data = true

instance : DecidableRel valLe := fun _ _ => instDecidableEqBool _ _

/-- The category index pandas assigns when coercing an object column with
`astype(category)`: the distinct non-null values, sorted ascending. -/
def naturalCategories (col : Column) : List Value :=
  List.insertionSort valLe (col.filterMap id).dedup

/-- Ascending-by-count comparison on (value, count) pairs. -/
def countLe (p q : Value × Nat) : Prop := p.2 ≤ q.2

/-- Descending-by-count comparison on (value, count) pairs. -/
def countGe (p q : Value × Nat) : Prop := q.2 ≤ p.2

instance : DecidableRel countLe := fun p q => Nat.decLe p.2 q.2

instance : DecidableRel countGe := fun p q => Nat.decLe q.2 p.2

/-- One (category, frequency) pair per category, in category order. -/
def countPairs (col : Column) : List (Value × Nat) :=
  (naturalCategories col).map (fun v => (v, countVal col v))

/-- `X_category[column].value_counts()`: counts per category, sorted by
descending count.  The tie order among equal counts is a model choice
(the numpy sort kernel does not guarantee one); no theorem below depends
on it. -/
def valueCounts (col : Column) : List (Value × Nat) :=
  List.insertionSort countGe (countPairs col)

/-- `value_counts().sort_values(ascending=True)`: the ascending frequency
ranking.  Only the by-count ordering is guaranteed by the program; the
tie order among equal counts is a model choice, and no theorem below
depends on it. -/
def rankAscending (col : Column) : List (Value × Nat) :=
  List.insertionSort countLe (valueCounts col)

/-- `rank = rank[rank >= self._minimum_cat_count]` when the threshold is
set; identity otherwise. -/
def minCountFiltered (cfg : Config) (col : Column) : List (Value × Nat) :=
  match cfg.minimumCatCount with
  | some k => (rankAscending col).filter (fun p => k ≤ p.2)
  | none => rankAscending col

/-- Start position of the Python slice `l[k:]` on a list of length `len`:
a nonnegative index is used as is, a negative one counts from the end
(with truncation at zero). -/
def pySliceStart (k : Int) (len : Nat) : Nat :=
  if 0 ≤ k then k.toNat else len - (-k).toNat

/-- Number of leading entries removed by `rank[-maximum_num_cat:]`; zero
when the cap is absent.  Note `-0 == 0` in Python, so a cap of zero
removes nothing. -/
def capStart (cfg : Config) (col : Column) : Nat :=
  match cfg.maximumNumCat with
  | some n => pySliceStart (-n) (minCountFiltered cfg col).length
  | none => 0

/-- The survivors kept by `rank[-maximum_num_cat:]`, still in ascending
frequency order. -/
def cappedSurvivors (cfg : Config) (col : Column) : List (Value × Nat) :=
  (minCountFiltered cfg col).drop (capStart cfg col)

/-- The entries the cardinality cap removed. -/
def droppedByCap (cfg : Config) (col : Column) : List (Value × Nat) :=
  (minCountFiltered cfg col).take (capStart cfg col)

/-- `category_list = list(rank[index].values)`: the surviving values, in
ascending frequency order. -/
def categoryListRanked (cfg : Config) (col : Column) : List Value :=
  (cappedSurvivors cfg col).map Prod.fst

/-- The ranking/filtering branch of `_generate_category_map` runs exactly
when `cat_order == count` or one of the two thresholds is set. -/
def rankingActive (cfg : Config) : Bool :=
  cfg.catOrder = "count" || cfg.minimumCatCount.isSome || cfg.maximumNumCat.isSome

/-- The per-column body of `_generate_category_map`: the final category
list recorded in `category_map` for one column. -/
def fitCategoryList (cfg : Config) (col : Column) : List Value :=
  if rankingActive cfg then
    let categoryList := categoryListRanked cfg col
    if 1 < categoryList.length then
      if cfg.catOrder = "original" then
        (naturalCategories col).filter (fun c => c ∈ categoryList)
      else if cfg.catOrder = "alphanumeric" then
        List.insertionSort valLe categoryList
      else
        categoryList
    else
      categoryList
  else if cfg.catOrder = "alphanumeric" then
    List.insertionSort valLe (naturalCategories col)
  else
    naturalCategories col

/-- The surviving distinct values of a column under a configuration: the
ranked survivors when the ranking branch runs, the whole natural category
index otherwise. -/
def survivingValues (cfg : Config) (col : Column) : List Value :=
  if rankingActive cfg then categoryListRanked cfg col
  else naturalCategories col

/-- First-occurrence order of the distinct non-null values of a column.
This is the order the specification text ascribes to the natural
vocabulary; it is compared against the order the code actually produces. -/
def firstOccurrenceOrder (col : Column) : List Value :=
  (col.filterMap id).foldl (fun acc a => if a ∈ acc then acc else acc ++ [a]) []

/-- Recoding one cell against a category list (`set_categories` or
`CategoricalDtype(categories=...)`): values outside the list become the
missing marker. -/
def recodeCell (cats : List Value) (c : Cell) : Cell :=
  match c with
  | some v => if v ∈ cats then some v else none
  | none => none

/-- Recoding a whole column against a category list. -/
def recodeColumn (cats : List Value) (col : Column) : Column :=
  col.map (recodeCell cats)

/-- `_generate_category_map`: transformed table plus fitted map.  With an
empty feature set it returns an empty table and no map. -/
def generateCategoryMap (cfg : Config) (featuresIn : List String)
    (X : Table) : Table × Option (List (String × List Value)) :=
  if featuresIn.isEmpty then ([], none)
  else
    (X.map (fun nc => (nc.1, recodeColumn (fitCategoryList cfg nc.2) nc.2)),
      some (X.map (fun nc => (nc.1, fitCategoryList cfg nc.2))))

/-- The mutable state of a `CategoryFeatureGenerator` instance. -/
structure GenState where
  config : Config
  featuresIn : List String
  categoryMap : Option (List (String × List Value))
deriving Repr, DecidableEq

/-- State right after construction: `self.category_map = None`. -/
def initState (cfg : Config) (featuresIn : List String) : GenState :=
  { config := cfg, featuresIn := featuresIn, categoryMap := none }

/-- `_generate_features_category`: coerce to categorical, then, when a map
is stored, recode every mapped column against its stored vocabulary on a
private copy.  Cell-level, the plain coercion is the identity. -/
def generateFeaturesCategory (s : GenState) (X : Table) : Table :=
  if s.featuresIn.isEmpty then []
  else
    match s.categoryMap with
    | none => X
    | some m =>
        X.map (fun nc =>
          match List.lookup nc.1 m with
          | some cats => (nc.1, recodeColumn cats nc.2)
          | none => nc)

/-- `_transform`: pure application of the stored state to a table.  The
returned state is the state the method leaves behind. -/
def transform (s : GenState) (X : Table) : Table × GenState :=
  (generateFeaturesCategory s X, s)

/-- `_fit_transform`: in stateful mode build and store the map, otherwise
fall through to the plain transform. -/
def fitTransform (s : GenState) (X : Table) : Table × GenState :=
  if s.config.statefulCategories then
    let r := generateCategoryMap s.config s.featuresIn X
    (r.1, { s with categoryMap := r.2 })
  else
    (generateFeaturesCategory s X, s)

/-- A sequence of fits, threading the state. -/
def fitMany (s : GenState) : List Table → GenState
  | [] => s
  | X :: Xs => fitMany (fitTransform s X).2 Xs

-- Concrete configurations and columns used in witnesses and
-- counterexamples.

/-- Default configuration: `cat_order = original`, no thresholds. -/
def cfgOriginal : Config :=
  { statefulCategories := true, minimizeMemory := true,
    catOrder := "original", minimumCatCount := none, maximumNumCat := none }

/-- Ascending-count ordering, no thresholds. -/
def cfgCount : Config :=
  { cfgOriginal with catOrder := "count" }

/-- Alphanumeric ordering, no thresholds. -/
def cfgAlpha : Config :=
  { cfgOriginal with catOrder := "alphanumeric" }

/-- Default ordering with `minimum_cat_count = 2`. -/
def cfgMin2 : Config :=
  { cfgOriginal with minimumCatCount := some 2 }

/-- Default ordering with `maximum_num_cat = 0`. -/
def cfgMax0 : Config :=
  { cfgOriginal with maximumNumCat := some 0 }

/-- Default ordering with `maximum_num_cat = 1`. -/
def cfgMax1 : Config :=
  { cfgOriginal with maximumNumCat := some 1 }

/-- The column [a, a, b, c, c, c] from the concrete spec scenarios. -/
def colSpec : Column :=
  [some "a", some "a", some "b", some "c", some "c", some "c"]

/-- A two-value column whose first-occurrence order is not sorted. -/
def colBA : Column := [some "b", some "a"]

/-- Stateless configuration (`stateful_categories=False`). -/
def cfgStateless : Config :=
  { cfgOriginal with statefulCategories := false }

/-- Alphanumeric ordering together with `minimum_cat_count = 2`, so the
ranking branch runs. -/
def cfgAlphaMin2 : Config :=
  { cfgAlpha with minimumCatCount := some 2 }

/-- A fitted state with a one-column map, used to exercise the applier on
unseen values. -/
def stFitted : GenState :=
  { config := cfgOriginal, featuresIn := ["x"],
    categoryMap := some [("x", ["a"])] }


theorem charListLe_total :
    ∀ as bs, charListLe as bs = true ∨ charListLe bs as = true
  | [], _ => Or.inl rfl
  | _ :: _, [] => Or.inr rfl
  | a :: as, b :: bs => by
    rcases Nat.lt_trichotomy a.toNat b.toNat with h | h | h
    · left
      simp [charListLe, h]
    · rcases charListLe_total as bs with ih | ih
      · left
        simp [charListLe, h, Nat.lt_irrefl, ih]
      · right
        simp [charListLe, h, Nat.lt_irrefl, ih]
    · right
      simp [charListLe, h]

theorem charListLe_trans :
    ∀ as bs cs, charListLe as bs = true → charListLe bs cs = true →
      charListLe as cs = true
  | [], _, _, _, _ => rfl
  | _ :: _, [], _, h, _ => by simp [charListLe] at h
  | _ :: _, _ :: _, [], _, h2 => by simp [charListLe] at h2
  | a :: as, b :: bs, c :: cs, h1, h2 => by
    simp only [charListLe] at h1 h2 ⊢
    by_cases hab : a.toNat < b.toNat
    · by_cases hbc : b.toNat < c.toNat
      · have hac : a.toNat < c.toNat := Nat.lt_trans hab hbc
        simp [hac]
      · by_cases hcb : c.toNat < b.toNat
        · simp [hbc, hcb] at h2
        · have hac : a.toNat < c.toNat := by omega
          simp [hac]
    · by_cases hba : b.toNat < a.toNat
      · simp [hab, hba] at h1
      · by_cases hbc : b.toNat < c.toNat
        · have hac : a.toNat < c.toNat := by omega
          simp [hac]
        · by_cases hcb : c.toNat < b.toNat
          · simp [hbc, hcb] at h2
          · have hac : ¬ a.toNat < c.toNat := by omega
            have hca : ¬ c.toNat < a.toNat := by omega
            simp only [hab, hba, if_false] at h1
            simp only [hbc, hcb, if_false] at h2
            simp only [hac, hca, if_false]
            exact charListLe_trans as bs cs h1 h2

instance : IsTotal Value valLe :=
  ⟨fun a b => charListLe_total a.data b.data⟩

instance : IsTrans Value valLe :=
  ⟨fun a b c => charListLe_trans a.data b.data c.data⟩

instance : IsTotal (Value × Nat) countLe :=
  ⟨fun p q => Nat.le_total p.2 q.2⟩

instance : IsTrans (Value × Nat) countLe :=
  ⟨fun _ _ _ h h2 => Nat.le_trans h h2⟩

instance : IsTotal (Value × Nat) countGe :=
  ⟨fun p q => Nat.le_total q.2 p.2⟩

instance : IsTrans (Value × Nat) countGe :=
  ⟨fun _ _ _ h h2 => Nat.le_trans h2 h⟩

/-- Model validation against the concrete scenarios of the specification:
count order on [a, a, b, c, c, c] gives [b, a, c], threshold 2 gives
[a, c], cap 1 gives [c]. -/
theorem model_concrete_scenarios :
    fitCategoryList cfgCount colSpec = ["b", "a", "c"] ∧
    fitCategoryList cfgMin2 colSpec = ["a", "c"] ∧
    fitCategoryList cfgMax1 colSpec = ["c"] := by
  refine ⟨by decide, by decide, by decide⟩

-- Basic facts about the pipeline stages.

theorem naturalCategories_nodup (col : Column) : (naturalCategories col).Nodup :=
  ((List.perm_insertionSort valLe _).nodup_iff).mpr (List.nodup_dedup _)

theorem mem_naturalCategories {col : Column} {v : Value} :
    v ∈ naturalCategories col ↔ v ∈ col.filterMap id := by
  simp [naturalCategories, List.mem_dedup]

theorem naturalCategories_sorted (col : Column) :
    List.Sorted valLe (naturalCategories col) :=
  List.sorted_insertionSort valLe _

theorem countPairs_fst (col : Column) :
    (countPairs col).map Prod.fst = naturalCategories col := by
  simp only [countPairs, List.map_map]
  exact List.map_id _

theorem mem_countPairs {col : Column} {p : Value × Nat} :
    p ∈ countPairs col ↔
      p.1 ∈ naturalCategories col ∧ p.2 = countVal col p.1 := by
  unfold countPairs
  rw [List.mem_map]
  constructor
  · rintro ⟨v, hv, rfl⟩
    exact ⟨hv, rfl⟩
  · rintro ⟨h1, h2⟩
    refine ⟨p.1, h1, ?_⟩
    rw [← h2]

theorem rankAscending_perm (col : Column) :
    (rankAscending col).Perm (countPairs col) :=
  (List.perm_insertionSort countLe _).trans (List.perm_insertionSort countGe _)

theorem mem_rankAscending {col : Column} {p : Value × Nat} :
    p ∈ rankAscending col ↔ p ∈ countPairs col :=
  (rankAscending_perm col).mem_iff

theorem rankAscending_sorted (col : Column) :
    List.Sorted countLe (rankAscending col) :=
  List.sorted_insertionSort countLe _

theorem rankAscending_fst_nodup (col : Column) :
    ((rankAscending col).map Prod.fst).Nodup := by
  have h := ((rankAscending_perm col).map Prod.fst).nodup_iff
  rw [countPairs_fst] at h
  exact h.mpr (naturalCategories_nodup col)

theorem minCountFiltered_sublist (cfg : Config) (col : Column) :
    (minCountFiltered cfg col).Sublist (rankAscending col) := by
  unfold minCountFiltered
  cases cfg.minimumCatCount with
  | none => exact List.Sublist.refl _
  | some k => exact List.filter_sublist _

theorem minCountFiltered_sorted (cfg : Config) (col : Column) :
    List.Sorted countLe (minCountFiltered cfg col) :=
  List.Pairwise.sublist (minCountFiltered_sublist cfg col)
    (rankAscending_sorted col)

theorem cappedSurvivors_sublist (cfg : Config) (col : Column) :
    (cappedSurvivors cfg col).Sublist (minCountFiltered cfg col) :=
  List.drop_sublist _ _

theorem take_append_capped (cfg : Config) (col : Column) :
    droppedByCap cfg col ++ cappedSurvivors cfg col = minCountFiltered cfg col :=
  List.take_append_drop _ _

theorem cappedSurvivors_sorted (cfg : Config) (col : Column) :
    List.Sorted countLe (cappedSurvivors cfg col) :=
  List.Pairwise.sublist (cappedSurvivors_sublist cfg col)
    (minCountFiltered_sorted cfg col)

theorem categoryListRanked_nodup (cfg : Config) (col : Column) :
    (categoryListRanked cfg col).Nodup := by
  have hsub : (categoryListRanked cfg col).Sublist
      ((rankAscending col).map Prod.fst) :=
    List.Sublist.map Prod.fst
      ((cappedSurvivors_sublist cfg col).trans (minCountFiltered_sublist cfg col))
  exact List.Nodup.sublist hsub (rankAscending_fst_nodup col)

theorem mem_cappedSurvivors_eq {cfg : Config} {col : Column} {p : Value × Nat}
    (h : p ∈ cappedSurvivors cfg col) :
    p.1 ∈ naturalCategories col ∧ p = (p.1, countVal col p.1) := by
  have h2 : p ∈ countPairs col :=
    mem_rankAscending.mp ((minCountFiltered_sublist cfg col).subset
      ((cappedSurvivors_sublist cfg col).subset h))
  rcases mem_countPairs.mp h2 with ⟨h3, h4⟩
  refine ⟨h3, ?_⟩
  rw [← h4]

theorem mem_minCountFiltered_count {cfg : Config} {col : Column} {k : Nat}
    {p : Value × Nat} (hk : cfg.minimumCatCount = some k)
    (h : p ∈ minCountFiltered cfg col) : k ≤ p.2 := by
  unfold minCountFiltered at h
  rw [hk] at h
  simpa using (List.mem_filter.mp h).2

theorem mem_minCountFiltered_of {cfg : Config} {col : Column} {v : Value}
    (hv : v ∈ naturalCategories col)
    (hk : ∀ k, cfg.minimumCatCount = some k → k ≤ countVal col v) :
    (v, countVal col v) ∈ minCountFiltered cfg col := by
  have h1 : (v, countVal col v) ∈ rankAscending col :=
    mem_rankAscending.mpr (mem_countPairs.mpr ⟨hv, rfl⟩)
  unfold minCountFiltered
  cases hmk : cfg.minimumCatCount with
  | none => exact h1
  | some k => exact List.mem_filter.mpr ⟨h1, by simpa using hk k hmk⟩

theorem categoryListRanked_subset_natural (cfg : Config) (col : Column) :
    categoryListRanked cfg col ⊆ naturalCategories col := by
  intro v hv
  rcases List.mem_map.mp hv with ⟨p, hp, rfl⟩
  exact (mem_cappedSurvivors_eq hp).1

-- The reordering step preserves the surviving values.

theorem filter_mem_perm {l1 l2 : List Value} (h1 : l1.Nodup) (h2 : l2.Nodup)
    (hsub : l2 ⊆ l1) : (l1.filter (fun c => c ∈ l2)).Perm l2 := by
  apply (List.perm_ext_iff_of_nodup (List.Nodup.filter _ h1) h2).mpr
  intro a
  simp only [List.mem_filter, decide_eq_true_eq]
  constructor
  · exact fun h => h.2
  · exact fun h => ⟨hsub h, h⟩

theorem rankingActive_of_max {cfg : Config} {n : Int}
    (hmax : cfg.maximumNumCat = some n) : rankingActive cfg = true := by
  simp [rankingActive, hmax]

theorem rankingActive_of_min {cfg : Config} {k : Nat}
    (hk : cfg.minimumCatCount = some k) : rankingActive cfg = true := by
  simp [rankingActive, hk]

theorem sorted_of_short {α : Type} {r : α → α → Prop} {l : List α}
    (h : l.length ≤ 1) : l.Pairwise r := by
  match l with
  | [] => exact List.Pairwise.nil
  | [a] => simp
  | a :: b :: t => simp at h

theorem fitCategoryList_perm (cfg : Config) (col : Column) :
    (fitCategoryList cfg col).Perm (survivingValues cfg col) := by
  unfold fitCategoryList survivingValues
  by_cases hact : rankingActive cfg = true
  · simp only [hact, if_true]
    by_cases hlen : 1 < (categoryListRanked cfg col).length
    · rw [if_pos hlen]
      by_cases ho : cfg.catOrder = "original"
      · rw [if_pos ho]
        exact filter_mem_perm (naturalCategories_nodup col)
          (categoryListRanked_nodup cfg col)
          (categoryListRanked_subset_natural cfg col)
      · rw [if_neg ho]
        by_cases ha : cfg.catOrder = "alphanumeric"
        · rw [if_pos ha]
          exact List.perm_insertionSort valLe _
        · rw [if_neg ha]
    · rw [if_neg hlen]
  · simp only [Bool.not_eq_true] at hact
    simp only [hact, Bool.false_eq_true, if_false]
    by_cases ha : cfg.catOrder = "alphanumeric"
    · rw [if_pos ha]
      exact List.perm_insertionSort valLe _
    · rw [if_neg ha]

theorem mem_fitCategoryList {cfg : Config} {col : Column} {v : Value} :
    v ∈ fitCategoryList cfg col ↔ v ∈ survivingValues cfg col :=
  (fitCategoryList_perm cfg col).mem_iff

theorem fitCategoryList_length (cfg : Config) (col : Column) :
    (fitCategoryList cfg col).length = (survivingValues cfg col).length :=
  (fitCategoryList_perm cfg col).length_eq

theorem fitCategoryList_nodup (cfg : Config) (col : Column) :
    (fitCategoryList cfg col).Nodup := by
  rw [(fitCategoryList_perm cfg col).nodup_iff]
  unfold survivingValues
  by_cases hact : rankingActive cfg = true
  · simp only [hact, if_true]
    exact categoryListRanked_nodup cfg col
  · simp only [Bool.not_eq_true] at hact
    simp only [hact, Bool.false_eq_true, if_false]
    exact naturalCategories_nodup col

-- Sortedness of the final vocabulary under the two ordering policies that
-- promise an order.

theorem fitCategoryList_sorted_original (cfg : Config) (col : Column)
    (h : cfg.catOrder = "original") :
    List.Sorted valLe (fitCategoryList cfg col) := by
  unfold fitCategoryList
  by_cases hact : rankingActive cfg = true
  · simp only [hact, if_true]
    by_cases hlen : 1 < (categoryListRanked cfg col).length
    · rw [if_pos hlen, if_pos h]
      exact List.Pairwise.sublist (List.filter_sublist _)
        (naturalCategories_sorted col)
    · rw [if_neg hlen]
      exact sorted_of_short (by omega)
  · simp only [Bool.not_eq_true] at hact
    simp only [hact, Bool.false_eq_true, if_false]
    have ha : ¬ cfg.catOrder = "alphanumeric" := by
      rw [h]
      decide
    rw [if_neg ha]
    exact naturalCategories_sorted col

theorem fitCategoryList_sorted_alpha (cfg : Config) (col : Column)
    (h : cfg.catOrder = "alphanumeric") :
    List.Sorted valLe (fitCategoryList cfg col) := by
  unfold fitCategoryList
  have ho : ¬ cfg.catOrder = "original" := by
    rw [h]
    decide
  by_cases hact : rankingActive cfg = true
  · simp only [hact, if_true]
    by_cases hlen : 1 < (categoryListRanked cfg col).length
    · rw [if_pos hlen, if_neg ho, if_pos h]
      exact List.sorted_insertionSort valLe _
    · rw [if_neg hlen]
      exact sorted_of_short (by omega)
  · simp only [Bool.not_eq_true] at hact
    simp only [hact, Bool.false_eq_true, if_false]
    rw [if_pos h]
    exact List.sorted_insertionSort valLe _

-- Cap arithmetic for the maximum-vocabulary-size slice.

theorem capStart_eq_of_pos {cfg : Config} {n : Int} (col : Column)
    (hmax : cfg.maximumNumCat = some n) (hn : 1 ≤ n) :
    capStart cfg col = (minCountFiltered cfg col).length - n.toNat := by
  unfold capStart pySliceStart
  rw [hmax]
  have h : ¬ (0 : Int) ≤ -n := by omega
  simp [h]

theorem capStart_eq_of_zero {cfg : Config} (col : Column)
    (hmax : cfg.maximumNumCat = some 0) :
    capStart cfg col = 0 := by
  unfold capStart pySliceStart
  rw [hmax]
  simp

theorem cappedSurvivors_length_le {cfg : Config} {n : Int} (col : Column)
    (hmax : cfg.maximumNumCat = some n) (hn : 1 ≤ n) :
    (cappedSurvivors cfg col).length ≤ n.toNat := by
  unfold cappedSurvivors
  rw [List.length_drop, capStart_eq_of_pos col hmax hn]
  omega

theorem droppedByCap_le_cappedSurvivors (cfg : Config) (col : Column) :
    ∀ p ∈ droppedByCap cfg col, ∀ q ∈ cappedSurvivors cfg col, p.2 ≤ q.2 := by
  have hs := minCountFiltered_sorted cfg col
  rw [← take_append_capped cfg col] at hs
  have h := (List.pairwise_append.mp hs).2.2
  intro p hp q hq
  exact h p hp q hq

theorem survivingValues_length_active {cfg : Config} (col : Column)
    (hact : rankingActive cfg = true) :
    (survivingValues cfg col).length = (cappedSurvivors cfg col).length := by
  unfold survivingValues
  rw [if_pos hact]
  exact List.length_map _ _

-- Table-level facts: what the fitted map records, and how the transform
-- recodes.

theorem generateCategoryMap_snd_eq {cfg : Config} {fin : List String}
    {X : Table} {m : List (String × List Value)}
    (hm : (generateCategoryMap cfg fin X).2 = some m) :
    m = X.map (fun nc => (nc.1, fitCategoryList cfg nc.2)) := by
  unfold generateCategoryMap at hm
  by_cases hf : fin.isEmpty
  · rw [if_pos hf] at hm
    simp at hm
  · rw [if_neg hf] at hm
    exact (Option.some.inj hm).symm

theorem mem_generateCategoryMap_of_mem {cfg : Config} {fin : List String}
    {X : Table} {name : String} {col : Column} {m : List (String × List Value)}
    (hm : (generateCategoryMap cfg fin X).2 = some m)
    (hX : (name, col) ∈ X) :
    (name, fitCategoryList cfg col) ∈ m := by
  rw [generateCategoryMap_snd_eq hm]
  exact List.mem_map.mpr ⟨(name, col), hX, rfl⟩

theorem recodeColumn_unseen {cats : List Value} {col : Column} {i : Nat}
    {v : Value} (hi : col[i]? = some (some v)) (hv : v ∉ cats) :
    (recodeColumn cats col)[i]? = some none := by
  unfold recodeColumn
  rw [List.getElem?_map, hi]
  simp [recodeCell, hv]

theorem transform_column {s : GenState} {X : Table} {j : Nat} {name : String}
    {col : Column} {m : List (String × List Value)} {cats : List Value}
    (hf : s.featuresIn.isEmpty = false)
    (hm : s.categoryMap = some m)
    (hj : X[j]? = some (name, col))
    (hc : List.lookup name m = some cats) :
    (transform s X).1[j]? = some (name, recodeColumn cats col) := by
  unfold transform generateFeaturesCategory
  simp only [hf, Bool.false_eq_true, if_false, hm]
  rw [List.getElem?_map, hj]
  simp [hc]

theorem fitTransform_stateless {s : GenState} {X : Table}
    (h : s.config.statefulCategories = false) :
    fitTransform s X = (generateFeaturesCategory s X, s) := by
  unfold fitTransform
  simp [h]

theorem generateFeaturesCategory_nomap {s : GenState} {X : Table}
    (hm : s.categoryMap = none) :
    generateFeaturesCategory s X = if s.featuresIn.isEmpty then [] else X := by
  unfold generateFeaturesCategory
  rw [hm]

-- Claim theorems.

/-- C1 counterexample: with `cat_order=original` and no filtering, fitting
the object column [b, a] records the vocabulary [a, b] (the sorted order
the pandas categorical coercion produces), not the first-occurrence order
[b, a] that the claim asserts. -/
theorem c1_counterexample :
    (generateCategoryMap cfgOriginal ["x"] [("x", colBA)]).2 =
      some [("x", ["a", "b"])] ∧
    firstOccurrenceOrder colBA = ["b", "a"] ∧
    ¬ (generateCategoryMap cfgOriginal ["x"] [("x", colBA)]).2 =
        some [("x", firstOccurrenceOrder colBA)] := by
  refine ⟨by decide, by decide, by decide⟩

/-- C1 amended: with `cat_order=original` the vocabulary recorded in the
category map for each fitted column lists the surviving distinct values in
ascending lexicographic order (the order the pandas categorical coercion
assigns), not first-occurrence order; it coincides with first-occurrence
order only when that order happens to be sorted. -/
theorem c1_original_gives_sorted_order (cfg : Config) (fin : List String)
    (X : Table) (name : String) (col : Column)
    (m : List (String × List Value))
    (h : cfg.catOrder = "original")
    (hX : (name, col) ∈ X)
    (hm : (generateCategoryMap cfg fin X).2 = some m) :
    (name, fitCategoryList cfg col) ∈ m ∧
    List.Sorted valLe (fitCategoryList cfg col) ∧
    (∀ v, v ∈ fitCategoryList cfg col ↔ v ∈ survivingValues cfg col) :=
  ⟨mem_generateCategoryMap_of_mem hm hX,
   fitCategoryList_sorted_original cfg col h,
   fun _ => mem_fitCategoryList⟩

/-- Witness for the amended C1 at the concrete table [("x", [b, a])]. -/
theorem c1_original_gives_sorted_order_witness :
    ("x", fitCategoryList cfgOriginal colBA) ∈ [("x", (["a", "b"] : List Value))] ∧
    List.Sorted valLe (fitCategoryList cfgOriginal colBA) ∧
    ("a" ∈ fitCategoryList cfgOriginal colBA ↔
      "a" ∈ survivingValues cfgOriginal colBA) := by
  have h := c1_original_gives_sorted_order cfgOriginal ["x"] [("x", colBA)]
    "x" colBA [("x", ["a", "b"])] rfl (by decide) (by decide)
  exact ⟨h.1, h.2.1, h.2.2 "a"⟩

/-- C4: with `cat_order=alphanumeric` the vocabulary recorded for every
fitted column is sorted lexicographically, whether or not frequency
filtering or cardinality capping applied. -/
theorem c4_alphanumeric_sorted (cfg : Config) (fin : List String)
    (X : Table) (name : String) (col : Column)
    (m : List (String × List Value))
    (h : cfg.catOrder = "alphanumeric")
    (hX : (name, col) ∈ X)
    (hm : (generateCategoryMap cfg fin X).2 = some m) :
    (name, fitCategoryList cfg col) ∈ m ∧
    List.Sorted valLe (fitCategoryList cfg col) :=
  ⟨mem_generateCategoryMap_of_mem hm hX,
   fitCategoryList_sorted_alpha cfg col h⟩

/-- Witness for C4 at a configuration where the filtering branch runs. -/
theorem c4_alphanumeric_sorted_witness :
    ("x", fitCategoryList cfgAlphaMin2 colSpec) ∈
      [("x", (["a", "c"] : List Value))] ∧
    List.Sorted valLe (fitCategoryList cfgAlphaMin2 colSpec) :=
  c4_alphanumeric_sorted cfgAlphaMin2 ["x"] [("x", colSpec)] "x" colSpec
    [("x", ["a", "c"])] rfl (by decide) (by decide)

/-- C3: with `minimum_cat_count = k` every value of frequency strictly
below k is absent from the fitted vocabulary, and every occurring value of
frequency at least k is present unless it was removed by the
`maximum_num_cat` cap. -/
theorem c3_minimum_count_filter (cfg : Config) (col : Column) (k : Nat)
    (hk : cfg.minimumCatCount = some k) (_hk1 : 1 < k) :
    (∀ v, countVal col v < k → v ∉ fitCategoryList cfg col) ∧
    (∀ v, v ∈ naturalCategories col → k ≤ countVal col v →
      v ∈ fitCategoryList cfg col ∨
        (v, countVal col v) ∈ droppedByCap cfg col) := by
  have hact : rankingActive cfg = true := rankingActive_of_min hk
  constructor
  · intro v hlt hmem
    have h1 : v ∈ survivingValues cfg col := mem_fitCategoryList.mp hmem
    unfold survivingValues at h1
    rw [if_pos hact] at h1
    rcases List.mem_map.mp h1 with ⟨p, hp, hpv⟩
    have h2 := mem_cappedSurvivors_eq hp
    have h3 : k ≤ p.2 :=
      mem_minCountFiltered_count hk ((cappedSurvivors_sublist cfg col).subset hp)
    have h4 : p.2 = countVal col p.1 := congrArg Prod.snd h2.2
    rw [h4, hpv] at h3
    omega
  · intro v hv hge
    have hmf : (v, countVal col v) ∈ minCountFiltered cfg col := by
      apply mem_minCountFiltered_of hv
      intro k2 hk2
      rw [hk] at hk2
      cases hk2
      exact hge
    rw [← take_append_capped cfg col] at hmf
    rcases List.mem_append.mp hmf with h | h
    · right
      exact h
    · left
      apply mem_fitCategoryList.mpr
      unfold survivingValues
      rw [if_pos hact]
      exact List.mem_map.mpr ⟨(v, countVal col v), h, rfl⟩

/-- Witness for C3 on [a, a, b, c, c, c] with threshold 2: b (frequency 1)
is dropped, a (frequency 2) is kept. -/
theorem c3_minimum_count_filter_witness :
    "b" ∉ fitCategoryList cfgMin2 colSpec ∧
    ("a" ∈ fitCategoryList cfgMin2 colSpec ∨
      ("a", countVal colSpec "a") ∈ droppedByCap cfgMin2 colSpec) := by
  have h := c3_minimum_count_filter cfgMin2 colSpec 2 rfl (by decide)
  exact ⟨h.1 "b" (by decide), h.2 "a" (by decide) (by decide)⟩

/-- C2 counterexample: with `maximum_num_cat = 0` the fitted vocabulary of
the column [b, a] has size 2, which is not at most 0, so the claim fails
as stated for n = 0. -/
theorem c2_counterexample :
    cfgMax0.maximumNumCat = some 0 ∧
    (fitCategoryList cfgMax0 colBA).length = 2 ∧
    ¬ (fitCategoryList cfgMax0 colBA).length ≤ 0 := by
  refine ⟨rfl, by decide, by decide⟩

/-- C2 amended: for `maximum_num_cat = n` with n at least 1, every fitted
vocabulary has size at most n and consists exactly of the values kept by
the cap: the length-n tail of the ascending-frequency survivor list (the n
most frequent survivors, in ascending frequency order before any
reordering); every capped-away survivor has frequency at most that of
every kept one.  For n = 0 the cap is inert (see the counterexample). -/
theorem c2_maximum_cap (cfg : Config) (col : Column) (n : Int)
    (hmax : cfg.maximumNumCat = some n) (hn : 1 ≤ n) :
    (fitCategoryList cfg col).length ≤ n.toNat ∧
    cappedSurvivors cfg col =
      (minCountFiltered cfg col).drop
        ((minCountFiltered cfg col).length - n.toNat) ∧
    List.Sorted countLe (cappedSurvivors cfg col) ∧
    (∀ v, v ∈ fitCategoryList cfg col ↔
      v ∈ (cappedSurvivors cfg col).map Prod.fst) ∧
    (∀ p ∈ droppedByCap cfg col, ∀ q ∈ cappedSurvivors cfg col,
      p.2 ≤ q.2) := by
  have hact : rankingActive cfg = true := rankingActive_of_max hmax
  refine ⟨?_, ?_, cappedSurvivors_sorted cfg col, ?_,
    droppedByCap_le_cappedSurvivors cfg col⟩
  · rw [fitCategoryList_length, survivingValues_length_active col hact]
    exact cappedSurvivors_length_le col hmax hn
  · unfold cappedSurvivors
    rw [capStart_eq_of_pos col hmax hn]
  · intro v
    rw [mem_fitCategoryList]
    unfold survivingValues categoryListRanked
    rw [if_pos hact]

/-- Witness for the amended C2 on [a, a, b, c, c, c] with cap 1: only c is
kept. -/
theorem c2_maximum_cap_witness :
    (fitCategoryList cfgMax1 colSpec).length ≤ (1 : Int).toNat ∧
    cappedSurvivors cfgMax1 colSpec =
      (minCountFiltered cfgMax1 colSpec).drop
        ((minCountFiltered cfgMax1 colSpec).length - (1 : Int).toNat) ∧
    List.Sorted countLe (cappedSurvivors cfgMax1 colSpec) ∧
    ("c" ∈ fitCategoryList cfgMax1 colSpec ↔
      "c" ∈ (cappedSurvivors cfgMax1 colSpec).map Prod.fst) ∧
    (("a", 2) : Value × Nat).2 ≤ (("c", 3) : Value × Nat).2 := by
  have h := c2_maximum_cap cfgMax1 colSpec 1 rfl (by decide)
  exact ⟨h.1, h.2.1, h.2.2.1, h.2.2.2.1 "c",
    h.2.2.2.2 ("a", 2) (by decide) ("c", 3) (by decide)⟩

/-- C10: with `maximum_num_cat = 0` the slice `rank[-0:]` keeps every
survivor of the minimum-count filter, so the cap is not applied and the
vocabulary can exceed the configured maximum. -/
theorem c10_zero_cap_inert (cfg : Config) (col : Column)
    (hmax : cfg.maximumNumCat = some 0) :
    cappedSurvivors cfg col = minCountFiltered cfg col ∧
    (fitCategoryList cfg col).length = (minCountFiltered cfg col).length := by
  have h1 : cappedSurvivors cfg col = minCountFiltered cfg col := by
    unfold cappedSurvivors
    rw [capStart_eq_of_zero col hmax]
    exact List.drop_zero _
  refine ⟨h1, ?_⟩
  rw [fitCategoryList_length,
    survivingValues_length_active col (rankingActive_of_max hmax),
    h1]

/-- Witness for C10: on [b, a] with cap 0 the fitted vocabulary has the
full size 2, exceeding the configured maximum of 0. -/
theorem c10_zero_cap_inert_witness :
    (cappedSurvivors cfgMax0 colBA = minCountFiltered cfgMax0 colBA ∧
      (fitCategoryList cfgMax0 colBA).length =
        (minCountFiltered cfgMax0 colBA).length) ∧
    0 < (fitCategoryList cfgMax0 colBA).length :=
  ⟨c10_zero_cap_inert cfgMax0 colBA rfl, by decide⟩

/-- C6: applying the fitted map to a table whose mapped column contains a
value absent from that column's fitted vocabulary yields the missing
marker for that cell; the transform is a total function, so no error is
raised. -/
theorem c6_unseen_becomes_missing (s : GenState) (X : Table) (j i : Nat)
    (name : String) (col : Column) (m : List (String × List Value))
    (cats : List Value) (v : Value)
    (hf : s.featuresIn.isEmpty = false)
    (hm : s.categoryMap = some m)
    (hj : X[j]? = some (name, col))
    (hc : List.lookup name m = some cats)
    (hi : col[i]? = some (some v))
    (hv : v ∉ cats) :
    (transform s X).1[j]? = some (name, recodeColumn cats col) ∧
    (recodeColumn cats col)[i]? = some none :=
  ⟨transform_column hf hm hj hc, recodeColumn_unseen hi hv⟩

/-- Witness for C6: the fitted vocabulary is [a], the transformed table
holds the unseen value z, and the output cell is the missing marker. -/
theorem c6_unseen_becomes_missing_witness :
    (transform stFitted [("x", [some "z"])]).1[0]? =
      some ("x", recodeColumn ["a"] [some "z"]) ∧
    (recodeColumn ["a"] [some "z"])[0]? = some none :=
  c6_unseen_becomes_missing stFitted [("x", [some "z"])] 0 0 "x"
    [some "z"] [("x", ["a"])] ["a"] "z" rfl rfl rfl rfl rfl (by decide)

/-- C7: a transform leaves the stored state, in particular the stored
category map, unchanged, and repeating the transform from the resulting
state reproduces the same output: the map is only read, never extended,
reordered or otherwise mutated.  (In this pure embedding the private-copy
discipline of the implementation appears as the transform being a function
of the state and input alone.) -/
theorem c7_transform_preserves_state (s : GenState) (X : Table) :
    (transform s X).2 = s ∧
    (transform s X).2.categoryMap = s.categoryMap ∧
    transform ((transform s X).2) X = transform s X :=
  ⟨rfl, rfl, rfl⟩

/-- C8: construction succeeds exactly when `cat_order` is one of the three
allowed names (for every combination of the other arguments), and an
invalid `cat_order` fails with the descriptive error naming the allowed
set: rejecting `cat_order` is the only construction-time validation
failure. -/
theorem c8_init_validates_cat_order (st mm : Bool) (catOrder : String)
    (mcc mnc : Option Int) :
    ((CategoryFeatureGenerator.init st mm catOrder mcc mnc).isOk = true ↔
      catOrder ∈ (["original", "alphanumeric", "count"] : List String)) ∧
    (catOrder ∉ (["original", "alphanumeric", "count"] : List String) →
      CategoryFeatureGenerator.init st mm catOrder mcc mnc =
        Except.error
          ("cat_order must be one of [original, alphanumeric, count], but was: "
            ++ catOrder)) := by
  by_cases h : catOrder ∈ (["original", "alphanumeric", "count"] : List String)
  · constructor
    · simp [CategoryFeatureGenerator.init, h, Except.isOk, Except.toBool]
    · intro hn
      exact absurd h hn
  · constructor
    · simp [CategoryFeatureGenerator.init, h, Except.isOk, Except.toBool]
    · intro _
      simp [CategoryFeatureGenerator.init, h]

/-- Witness for C8: an invalid ordering name is rejected with the
descriptive error. -/
theorem c8_init_validates_cat_order_witness :
    CategoryFeatureGenerator.init true true "bogus" none none =
      Except.error
        ("cat_order must be one of [original, alphanumeric, count], but was: "
          ++ "bogus") :=
  (c8_init_validates_cat_order true true "bogus" none none).2 (by decide)

/-- C9: with `stateful_categories=False`, any sequence of fits leaves the
state exactly as constructed (in particular no category map is ever built
or retained), and each fit returns the plain categorical coercion of its
own input (the identity on cells, up to the empty-feature guard),
independent of all previous fits. -/
theorem c9_stateless_mode (cfg : Config) (fin : List String)
    (Xs : List Table) (X : Table)
    (h : cfg.statefulCategories = false) :
    fitMany (initState cfg fin) Xs = initState cfg fin ∧
    (fitMany (initState cfg fin) Xs).categoryMap = none ∧
    (fitTransform (fitMany (initState cfg fin) Xs) X).1 =
      (if fin.isEmpty then [] else X) ∧
    (fitTransform (fitMany (initState cfg fin) Xs) X).2 =
      initState cfg fin := by
  have hstate : ∀ Ys, fitMany (initState cfg fin) Ys = initState cfg fin := by
    intro Ys
    induction Ys with
    | nil => rfl
    | cons Y Ys ih =>
        show fitMany (fitTransform (initState cfg fin) Y).2 Ys = _
        rw [fitTransform_stateless h]
        exact ih
  refine ⟨hstate Xs, by rw [hstate Xs]; rfl, ?_, ?_⟩
  · rw [hstate Xs, fitTransform_stateless h]
    exact generateFeaturesCategory_nomap rfl
  · rw [hstate Xs, fitTransform_stateless h]

/-- Witness for C9: one previous fit, then a fit on the spec column. -/
theorem c9_stateless_mode_witness :
    fitMany (initState cfgStateless ["x"]) [[("x", colBA)]] =
      initState cfgStateless ["x"] ∧
    (fitMany (initState cfgStateless ["x"]) [[("x", colBA)]]).categoryMap =
      none ∧
    (fitTransform (fitMany (initState cfgStateless ["x"]) [[("x", colBA)]])
      [("x", colSpec)]).1 =
      (if (["x"] : List String).isEmpty then [] else [("x", colSpec)]) ∧
    (fitTransform (fitMany (initState cfgStateless ["x"]) [[("x", colBA)]])
      [("x", colSpec)]).2 = initState cfgStateless ["x"] :=
  c9_stateless_mode cfgStateless ["x"] [[("x", colBA)]] [("x", colSpec)] rfl
